import Mathlib

/-!
Verification of the goose hook-runner core against its specification.

Shallow embedding of the Python sources under `src/goose/`:
pure functions become Lean functions; file-system reads become explicit
directory-content parameters; the SHA-256 digest is an abstract parameter
`sha256hex : String → String` (the properties at stake concern the
accumulation structure, never the digest internals); stateful code
(the scheduler) becomes explicit state passing plus a step relation.
-/

/-! ## Configuration data model (`src/goose/config.py`) -/

/-- `EcosystemConfig = VersionedEcosystemConfig | Language`.  A bare language
string and a versioned record are distinct values (Python equality between a
`str` and a pydantic model is always false). -/
inductive EcosystemConfig
  | lang (language : String)
  | versioned (language : String) (version : Option String)
deriving DecidableEq

/-- `EnvironmentConfig` from `config.py`: unique id, ecosystem, ordered
dependency tuple. -/
structure EnvironmentConfig where
  id : String
  ecosystem : EcosystemConfig
  dependencies : List String
deriving DecidableEq

/-- `HookConfig` from `config.py`.  Regex patterns are represented by their
source strings; `search` semantics is an abstract parameter where matching
is needed. -/
structure HookConfig where
  id : String
  environment : String
  command : String
  args : List String
  env_vars : List (String × String)
  parameterize : Bool
  types : Finset String
  limit : List String
  exclude : List String
  read_only : Bool
deriving DecidableEq

/-- `Target` from `targets.py`: a path plus classification tags. -/
structure Target where
  path : String
  tags : Finset String
deriving DecidableEq

/-- `ExecutableUnit` from `executable_unit.py`. -/
structure ExecutableUnit where
  id : Nat
  hook : HookConfig
  targets : Finset String
deriving DecidableEq

/-- `RunResult` from `backend/base.py`. -/
inductive RunResult
  | ok
  | error
  | modified
deriving DecidableEq

/-! ## Manifest & checksum (`src/goose/manifest.py`) -/

/-- `LockFile`: path relative to the lockfiles root plus a
`"sha256:<hex>"` checksum. -/
structure LockFile where
  path : String
  checksum : String
deriving DecidableEq

/-- `LockFile.__eq__`: equality is by `path` only. -/
def lockfile_py_eq (a b : LockFile) : Bool :=
  a.path == b.path

/-- `LockManifest` data (the pydantic field validators are modelled
separately by `validate_manifest`). -/
structure LockManifest where
  source_ecosystem : EcosystemConfig
  source_dependencies : List String
  lock_files : List LockFile
  checksum : String
deriving DecidableEq

/-- `_get_accumulated_checksum`: iteratively feeding each lock file's
checksum string into one SHA-256 digest equals hashing their
concatenation. -/
def get_accumulated_checksum (sha256hex : String → String) (lock_files : List LockFile) : String :=
  "sha256:" ++ sha256hex (String.join (lock_files.map (fun lf => lf.checksum)))

/-- `read_lock_file(lock_files_path, path)`: the second component of the
input pair is the file's content; `path.relative_to(lock_files_path)`
recovers the relative path string, and `_get_checksum` hashes the
content. -/
def read_lock_file (sha256hex : String → String) (entry : String × String) : LockFile :=
  { path := entry.1, checksum := "sha256:" ++ sha256hex entry.2 }

/-- Stable comparison sort, modelling Python `sorted`. -/
def insert_by (lt : α → α → Bool) (a : α) : List α → List α
  | [] => [a]
  | b :: t => if lt a b then a :: b :: t else b :: insert_by lt a t

/-- Python `sorted` with comparisons through `__lt__`. -/
def sort_by (lt : α → α → Bool) : List α → List α
  | [] => []
  | a :: t => insert_by lt a (sort_by lt t)

/-- `LockFile.__lt__`: ordering is by `path` only. -/
def lockfile_py_lt (a b : LockFile) : Bool :=
  decide (a.path < b.path)

/-- `build_manifest(source_ecosystem, source_dependencies, lock_files,
lock_files_path)`: each `(relative path, content)` pair is read into a
`LockFile`, the entries are sorted, and the manifest checksum is the
accumulated checksum of the sorted entries. -/
def build_manifest (sha256hex : String → String) (source_ecosystem : EcosystemConfig)
    (source_dependencies : List String) (lock_files : List (String × String)) : LockManifest :=
  let lock_file_instances := sort_by lockfile_py_lt (lock_files.map (read_lock_file sha256hex))
  { source_ecosystem := source_ecosystem
    source_dependencies := sort_by (fun a b => decide (a < b)) source_dependencies
    lock_files := lock_file_instances
    checksum := get_accumulated_checksum sha256hex lock_file_instances }

/-- Adjacent-pairs check: `sorted(v) == list(v)` holds exactly when adjacent
elements are non-decreasing. -/
def pairs_le_by (le : α → α → Bool) : List α → Bool
  | [] => true
  | [_] => true
  | a :: b :: t => le a b && pairs_le_by le (b :: t)

/-- `validate_sorted` for `source_dependencies`. -/
def deps_sorted (l : List String) : Bool :=
  pairs_le_by (fun a b => decide (a ≤ b)) l

/-- `validate_sorted` for `lock_files` (ordering by `path`). -/
def lock_files_sorted (l : List LockFile) : Bool :=
  pairs_le_by (fun a b => decide (a.path ≤ b.path)) l

/-- `validate_unique`: `len(set(v)) == len(v)`, with the set modelled
structurally (pydantic hashes frozen models by their field values). -/
def all_unique [DecidableEq α] (l : List α) : Bool :=
  l.dedup.length == l.length

/-- The validator suite of `LockManifest`: `validate_sorted`,
`validate_unique`, `validate_non_empty` on both tuple fields, then
`validate_checksum_matches` comparing the checksum field against the
accumulated checksum of the (already validated) lock files. -/
def validate_manifest (sha256hex : String → String) (m : LockManifest) : Bool :=
  deps_sorted m.source_dependencies
    && all_unique m.source_dependencies
    && !m.source_dependencies.isEmpty
    && lock_files_sorted m.lock_files
    && all_unique m.lock_files
    && !m.lock_files.isEmpty
    && (m.checksum == get_accumulated_checksum sha256hex m.lock_files)

/-- `LockFileState` from `manifest.py`. -/
inductive LockFileState
  | missing_lock_file
  | state_manifest_mismatch
  | manifest_lock_file_mismatch
  | config_manifest_mismatch
  | matching
deriving DecidableEq

/-- The on-disk contents of a lockfiles directory: the parsed manifest (or
`none` when `manifest.json` is absent, the `FileNotFoundError` branch) and
the lock files as an association list from relative path to content. -/
structure LockDir where
  manifest : Option LockManifest
  files : List (String × String)

/-- `path.exists()` plus `path.open("rb")` against the directory listing. -/
def lookup_file (files : List (String × String)) (p : String) : Option String :=
  (files.find? (fun kv => kv.1 == p)).map (fun kv => kv.2)

/-- The `for persisted_lock_file in manifest.lock_files` loop of
`check_lock_files`: returns `some` of the first failure, `none` when the
loop falls through.  `read_lock_file` is applied to
`lock_files_path / persisted.path`, whose path relative to
`lock_files_path` is `persisted.path` again. -/
def check_lock_files_loop (sha256hex : String → String) (files : List (String × String)) :
    List LockFile → Option LockFileState
  | [] => none
  | lf :: rest =>
    match lookup_file files lf.path with
    | none => some LockFileState.missing_lock_file
    | some content =>
      let actual : LockFile := { path := lf.path, checksum := "sha256:" ++ sha256hex content }
      if !(lockfile_py_eq actual lf) then some LockFileState.manifest_lock_file_mismatch
      else check_lock_files_loop sha256hex files rest

/-- `check_lock_files(lock_files_path, state_checksum, config)`.  The
Python symmetric-difference test `set(a) ^ set(b)` is truthy exactly when
the two sets differ. -/
def check_lock_files (sha256hex : String → String) (dir : LockDir)
    (state_checksum : Option String) (config : EnvironmentConfig) : LockFileState :=
  match dir.manifest with
  | none => LockFileState.config_manifest_mismatch
  | some manifest =>
    if config.ecosystem ≠ manifest.source_ecosystem then
      LockFileState.config_manifest_mismatch
    else if config.dependencies.toFinset ≠ manifest.source_dependencies.toFinset then
      LockFileState.config_manifest_mismatch
    else
      match check_lock_files_loop sha256hex dir.files manifest.lock_files with
      | some st => st
      | none =>
        if state_checksum ≠ some manifest.checksum then
          LockFileState.state_manifest_mismatch
        else
          LockFileState.matching

/-- The decision table of claim C1 as amended: the lock-file content
comparison can never fail (path-only equality), and the state-checksum
comparison is performed unconditionally, so a `None` state checksum yields
`state_manifest_mismatch`, never `matching`. -/
def check_lock_files_amended (dir : LockDir)
    (state_checksum : Option String) (config : EnvironmentConfig) : LockFileState :=
  match dir.manifest with
  | none => LockFileState.config_manifest_mismatch
  | some manifest =>
    if config.ecosystem ≠ manifest.source_ecosystem then
      LockFileState.config_manifest_mismatch
    else if config.dependencies.toFinset ≠ manifest.source_dependencies.toFinset then
      LockFileState.config_manifest_mismatch
    else if manifest.lock_files.any (fun lf => (lookup_file dir.files lf.path).isNone) then
      LockFileState.missing_lock_file
    else if state_checksum ≠ some manifest.checksum then
      LockFileState.state_manifest_mismatch
    else
      LockFileState.matching

/-! ### Lemmas about `check_lock_files` -/

theorem check_lock_files_loop_eq (sha256hex : String → String)
    (files : List (String × String)) (lfs : List LockFile) :
    check_lock_files_loop sha256hex files lfs =
      (if lfs.any (fun lf => (lookup_file files lf.path).isNone) then
        some LockFileState.missing_lock_file
      else none) := by
  induction lfs with
  | nil => simp [check_lock_files_loop]
  | cons lf rest ih =>
    simp only [check_lock_files_loop]
    split
    next heq => simp [heq]
    next content heq => simp [heq, lockfile_py_eq, ih]

/-- `check_lock_files` agrees everywhere with the amended decision table
(shared helper used by the C1 and C2 theorems). -/
theorem check_lock_files_eq_table (sha256hex : String → String)
    (dir : LockDir) (state_checksum : Option String) (config : EnvironmentConfig) :
    check_lock_files sha256hex dir state_checksum config =
      check_lock_files_amended dir state_checksum config := by
  obtain ⟨mOpt, files⟩ := dir
  cases mOpt with
  | none => rfl
  | some manifest =>
    simp only [check_lock_files, check_lock_files_amended, check_lock_files_loop_eq]
    by_cases h1 : config.ecosystem ≠ manifest.source_ecosystem
    · simp [h1]
    · by_cases h2 : config.dependencies.toFinset ≠ manifest.source_dependencies.toFinset
      · simp [h1, h2]
      · by_cases h3 : ∃ x ∈ manifest.lock_files, lookup_file files x.path = none
        · simp [h1, h2, h3]
        · simp [h1, h2, h3]

/-- The `manifest_lock_file_mismatch` branch of `check_lock_files` is
unreachable (shared helper used by the C2 theorem). -/
theorem check_lock_files_no_mismatch (sha256hex : String → String)
    (dir : LockDir) (state_checksum : Option String) (config : EnvironmentConfig) :
    check_lock_files sha256hex dir state_checksum config ≠
      LockFileState.manifest_lock_file_mismatch := by
  rw [check_lock_files_eq_table]
  obtain ⟨mOpt, files⟩ := dir
  cases mOpt with
  | none => simp [check_lock_files_amended]
  | some manifest =>
    simp only [check_lock_files_amended]
    by_cases h1 : config.ecosystem ≠ manifest.source_ecosystem
    · simp [h1]
    · by_cases h2 : config.dependencies.toFinset ≠ manifest.source_dependencies.toFinset
      · simp [h1, h2]
      · by_cases h3 : ∃ x ∈ manifest.lock_files, lookup_file files x.path = none
        · simp [h1, h2, h3]
        · by_cases h4 : state_checksum = some manifest.checksum
          · simp [h1, h2, h3, h4]
          · simp [h1, h2, h3, h4]

/-- C1 (amended): `check_lock_files` evaluates the amended decision table:
`config_manifest_mismatch` on an absent manifest, differing ecosystem or
differing dependency sets; `missing_lock_file` when a listed lock file is
absent; the lock-file content comparison never fails (path-only equality);
and the state-checksum comparison is performed unconditionally, so a `None`
state checksum yields `state_manifest_mismatch` and `matching` requires
`state_checksum = Some(manifest.checksum)`. -/
theorem check_lock_files_follows_amended_table (sha256hex : String → String)
    (dir : LockDir) (state_checksum : Option String) (config : EnvironmentConfig) :
    check_lock_files sha256hex dir state_checksum config =
      check_lock_files_amended dir state_checksum config :=
  check_lock_files_eq_table sha256hex dir state_checksum config

/-- Concrete data for the C1 counterexample: a manifest that is consistent
with the configuration, whose sole lock file is present with intact
content, queried with `state_checksum = None`.  The digest function is a
constant, consistent with the single recorded checksum. -/
def sha_const (_s : String) : String := "HASH"

def manifest_intact : LockManifest :=
  { source_ecosystem := EcosystemConfig.lang "python"
    source_dependencies := ["ruff"]
    lock_files := [{ path := "requirements.txt", checksum := "sha256:HASH" }]
    checksum := "sha256:HASH" }

def dir_intact : LockDir :=
  { manifest := some manifest_intact
    files := [("requirements.txt", "ruff==1")] }

def config_intact : EnvironmentConfig :=
  { id := "python"
    ecosystem := EcosystemConfig.lang "python"
    dependencies := ["ruff"] }

/-- C1 counterexample: with a present, config-consistent manifest, an
existing lock file whose recomputed checksum equals the recorded one, and
`state_checksum = None`, the code returns `state_manifest_mismatch` — not
`matching` as the claim states (the comparison is not skipped: `None`
never equals the manifest checksum). -/
theorem check_lock_files_none_not_matching :
    validate_manifest sha_const manifest_intact = true ∧
    lookup_file dir_intact.files "requirements.txt" = some "ruff==1" ∧
    ("sha256:" ++ sha_const "ruff==1") = "sha256:HASH" ∧
    check_lock_files sha_const dir_intact none config_intact =
      LockFileState.state_manifest_mismatch ∧
    check_lock_files sha_const dir_intact none config_intact ≠
      LockFileState.matching := by
  refine ⟨by decide, by decide, by decide, ?_, ?_⟩ <;> decide

/-- Concrete data for C2: the manifest records checksum `"sha256:AAAA"`
for `requirements.txt`, but the on-disk content's recomputed checksum is
`"sha256:HASH"` — the lock file has been tampered with. -/
def manifest_tampered : LockManifest :=
  { source_ecosystem := EcosystemConfig.lang "python"
    source_dependencies := ["ruff"]
    lock_files := [{ path := "requirements.txt", checksum := "sha256:AAAA" }]
    checksum := "sha256:HASH" }

def dir_tampered : LockDir :=
  { manifest := some manifest_tampered
    files := [("requirements.txt", "ruff==2")] }

/-- C2 (code bug): lock-file tampering is never detected.  At the concrete
tampered directory the recomputed checksum differs from the recorded one,
yet `check_lock_files` returns `matching`; in general the
`manifest_lock_file_mismatch` branch is unreachable, because
`LockFile.__eq__` compares paths only and the recomputed lock file always
carries the same path as the persisted one. -/
theorem check_lock_files_tampering_undetected :
    (("sha256:" ++ sha_const "ruff==2") ≠ "sha256:AAAA") ∧
    check_lock_files sha_const dir_tampered (some "sha256:HASH") config_intact =
      LockFileState.matching ∧
    (∀ (sha256hex : String → String) (dir : LockDir)
        (state_checksum : Option String) (config : EnvironmentConfig),
      check_lock_files sha256hex dir state_checksum config ≠
        LockFileState.manifest_lock_file_mismatch) :=
  ⟨by decide, by decide, check_lock_files_no_mismatch⟩

/-- C2 witness: the general dead-branch fact applied at the concrete
tampered input. -/
theorem check_lock_files_tampering_undetected_witness :
    check_lock_files sha_const dir_tampered (some "sha256:HASH") config_intact ≠
      LockFileState.manifest_lock_file_mismatch :=
  check_lock_files_tampering_undetected.2.2 sha_const dir_tampered
    (some "sha256:HASH") config_intact

/-- C7: an accepted manifest's checksum equals the accumulated checksum of
its lock files in stored order; the validator rejects any disagreement;
and `build_manifest` always constructs a manifest satisfying the
equation. -/
theorem manifest_checksum_invariant (sha256hex : String → String) :
    (∀ m : LockManifest, validate_manifest sha256hex m = true →
      m.checksum = get_accumulated_checksum sha256hex m.lock_files) ∧
    (∀ m : LockManifest, m.checksum ≠ get_accumulated_checksum sha256hex m.lock_files →
      validate_manifest sha256hex m = false) ∧
    (∀ (eco : EcosystemConfig) (deps : List String) (files : List (String × String)),
      (build_manifest sha256hex eco deps files).checksum =
        get_accumulated_checksum sha256hex (build_manifest sha256hex eco deps files).lock_files) := by
  refine ⟨?_, ?_, ?_⟩
  · intro m hv
    unfold validate_manifest at hv
    simp only [Bool.and_eq_true, beq_iff_eq] at hv
    exact hv.2
  · intro m hne
    unfold validate_manifest
    simp only [Bool.and_eq_false_iff, beq_eq_false_iff_ne, ne_eq]
    exact Or.inr hne
  · intro eco deps files
    rfl

/-- C7 witness: the invariant evaluated at the intact concrete manifest
and at a concrete `build_manifest` input. -/
theorem manifest_checksum_invariant_witness :
    (validate_manifest sha_const manifest_intact = true ∧
      manifest_intact.checksum = get_accumulated_checksum sha_const manifest_intact.lock_files) ∧
    (build_manifest sha_const (EcosystemConfig.lang "python") ["ruff"]
        [("requirements.txt", "ruff==1")]).checksum =
      get_accumulated_checksum sha_const
        (build_manifest sha_const (EcosystemConfig.lang "python") ["ruff"]
          [("requirements.txt", "ruff==1")]).lock_files :=
  ⟨⟨by decide, (manifest_checksum_invariant sha_const).1 manifest_intact (by decide)⟩,
    (manifest_checksum_invariant sha_const).2.2 (EcosystemConfig.lang "python") ["ruff"]
      [("requirements.txt", "ruff==1")]⟩

/-! ## Environment state store (`src/goose/environment.py`) -/

/-- `InitialStage` from `environment.py`. -/
inductive InitialStage
  | bootstrapped
  | frozen
deriving DecidableEq

/-- The persistable states (`SyncedState | InitialState`), i.e. the root of
`_PersistedState`. -/
inductive PersistedState
  | initial (stage : InitialStage) (ecosystem : EcosystemConfig)
  | synced (checksum : String) (ecosystem : EcosystemConfig)
deriving DecidableEq

/-- `State = SyncedState | InitialState | UninitializedState`. -/
inductive EnvState
  | uninitialized
  | persisted (s : PersistedState)
deriving DecidableEq

/-- An observable file-system operation performed by the state store. -/
inductive FsOp
  | write_file (path : String) (content : String)
  | rename_file (source : String) (dest : String)
deriving DecidableEq

/-- `write_state(env_dir, state)`: a single direct
`state_file.write_text(state.model_dump_json())` — the operation trace
contains exactly one in-place write of the serialized state to
`<env_dir>/goose-state.json` and nothing else. -/
def write_state_ops (env_dir : String) (dump : PersistedState → String)
    (state : PersistedState) : List FsOp :=
  [FsOp.write_file (env_dir ++ "/goose-state.json") (dump state)]

/-- `read_state(env_dir)`: `Uninitialized` when the state file is absent,
otherwise `model_validate_json` of its content (`validate_json` models the
pydantic parser; its `Except.error` is the raised validation failure). -/
def read_state (env_dir : String) (files : List (String × String))
    (validate_json : String → Except String PersistedState) : Except String EnvState :=
  match lookup_file files (env_dir ++ "/goose-state.json") with
  | none => Except.ok EnvState.uninitialized
  | some content => (validate_json content).map EnvState.persisted

/-- Concrete serializer and parser for the C8 counterexample: the parser
accepts exactly the serializer's complete output, as `model_validate_json`
accepts well-formed state documents and rejects truncated ones. -/
def dump_const (_s : PersistedState) : String := "JSONDATA"

def validate_json_const (s : String) : Except String PersistedState :=
  if s = "JSONDATA" then Except.ok (PersistedState.initial InitialStage.bootstrapped (EcosystemConfig.lang "python"))
  else Except.error "invalid state document"

def state_example : PersistedState :=
  PersistedState.initial InitialStage.bootstrapped (EcosystemConfig.lang "python")

/-- C8 counterexample: `write_state` does not write to a temporary file and
rename — its operation trace is a single in-place write to the final path,
with no rename; consequently an interrupted write (here: the file already
truncated to empty by `open("w")` before the content landed) leaves a state
file that the next `read_state` fails to parse, instead of reading
`Uninitialized` or a previously valid state. -/
theorem write_state_not_atomic :
    write_state_ops "env" dump_const state_example =
      [FsOp.write_file "env/goose-state.json" "JSONDATA"] ∧
    (∀ op ∈ write_state_ops "env" dump_const state_example,
      ∀ src dst, op ≠ FsOp.rename_file src dst) ∧
    read_state "env" [("env/goose-state.json", "")] validate_json_const =
      Except.error "invalid state document" := by
  refine ⟨rfl, ?_, rfl⟩
  intro op hop src dst
  simp [write_state_ops] at hop
  simp [hop]

/-- C8 (amended): `write_state` performs a single direct in-place write of
the serialized state to `<env_dir>/goose-state.json` (no temporary file, no
rename), and `read_state` returns `Uninitialized` exactly when the state
file is absent. -/
theorem write_state_single_direct_write (env_dir : String)
    (dump : PersistedState → String) (state : PersistedState)
    (files : List (String × String))
    (validate_json : String → Except String PersistedState) :
    write_state_ops env_dir dump state =
      [FsOp.write_file (env_dir ++ "/goose-state.json") (dump state)] ∧
    (lookup_file files (env_dir ++ "/goose-state.json") = none →
      read_state env_dir files validate_json = Except.ok EnvState.uninitialized) := by
  refine ⟨rfl, ?_⟩
  intro h
  simp [read_state, h]

/-- C8 witness: the amended fact at a concrete state and an empty
directory. -/
theorem write_state_single_direct_write_witness :
    write_state_ops "env" dump_const state_example =
      [FsOp.write_file ("env" ++ "/goose-state.json") (dump_const state_example)] ∧
    read_state "env" [] validate_json_const = Except.ok EnvState.uninitialized :=
  ⟨(write_state_single_direct_write "env" dump_const state_example [] validate_json_const).1,
    (write_state_single_direct_write "env" dump_const state_example [] validate_json_const).2
      (by decide)⟩

/-! ## Post-run change detection (`Environment.run`, `src/goose/environment.py`) -/

/-- A parsed entry of `git status --porcelain=v2` (`ChangedFile` in
`git/status.py`). -/
structure ChangedFile where
  path : String
  head_object_name : String
  index_object_name : String
  worktree_object_name : String
deriving DecidableEq

/-- The observable operations of `Environment.run`: taking a VCS status
snapshot over a set of paths, and invoking the backend `run`. -/
inductive RunOp
  | snapshot (targets : Finset String)
  | backend_run
deriving DecidableEq

/-- `Environment.run(unit)`.  `git_status ts i` is the value
`get_git_status(ts)` would return at the i-th observation (0 = before the
backend runs, 1 = after).  Returns the surfaced `RunResult` together with
the trace of operations in execution order: the backend coroutine is
created first but only awaited after the prior snapshot. -/
def environment_run (git_status : Finset String → Nat → List ChangedFile)
    (backend_result : RunResult) (unit : ExecutableUnit) : RunResult × List RunOp :=
  if unit.hook.read_only then
    (backend_result, [RunOp.backend_run])
  else
    let status_prior := git_status unit.targets 0
    if backend_result = RunResult.error then
      (backend_result, [RunOp.snapshot unit.targets, RunOp.backend_run])
    else
      let status_post := git_status unit.targets 1
      if status_prior ≠ status_post then
        (RunResult.modified,
          [RunOp.snapshot unit.targets, RunOp.backend_run, RunOp.snapshot unit.targets])
      else
        (backend_result,
          [RunOp.snapshot unit.targets, RunOp.backend_run, RunOp.snapshot unit.targets])

/-- The `run` of every shipped backend (`backend/python.py`,
`backend/node.py`, `backend/system.py`): `RunResult.ok if
process.returncode == 0 else RunResult.error`. -/
def backend_run_result (returncode : Int) : RunResult :=
  if returncode = 0 then RunResult.ok else RunResult.error

/-- C6: for a unit whose hook is not read-only, `Environment.run` snapshots
VCS status over `unit.targets` before invoking the backend; surfaces
`error` without a second snapshot when the backend errors; surfaces
`modified` when the backend returns `ok` but the post-run snapshot differs
from the pre-run snapshot; and surfaces `ok` when the backend returns `ok`
and the snapshots agree. -/
theorem environment_run_change_detection
    (git_status : Finset String → Nat → List ChangedFile)
    (backend_result : RunResult) (unit : ExecutableUnit)
    (hro : unit.hook.read_only = false) :
    ((environment_run git_status backend_result unit).2.take 2 =
      [RunOp.snapshot unit.targets, RunOp.backend_run]) ∧
    (backend_result = RunResult.error →
      environment_run git_status backend_result unit =
        (RunResult.error, [RunOp.snapshot unit.targets, RunOp.backend_run])) ∧
    (backend_result = RunResult.ok →
      git_status unit.targets 0 ≠ git_status unit.targets 1 →
      environment_run git_status backend_result unit =
        (RunResult.modified,
          [RunOp.snapshot unit.targets, RunOp.backend_run, RunOp.snapshot unit.targets])) ∧
    (backend_result = RunResult.ok →
      git_status unit.targets 0 = git_status unit.targets 1 →
      environment_run git_status backend_result unit =
        (RunResult.ok,
          [RunOp.snapshot unit.targets, RunOp.backend_run, RunOp.snapshot unit.targets])) := by
  refine ⟨?_, ?_, ?_, ?_⟩
  · unfold environment_run
    rw [hro]
    simp only [Bool.false_eq_true, if_false]
    by_cases he : backend_result = RunResult.error
    · simp [he]
    · by_cases hs : git_status unit.targets 0 = git_status unit.targets 1 <;> simp [he, hs]
  · intro he
    simp [environment_run, hro, he]
  · intro hok hs
    simp [environment_run, hro, hok, hs]
  · intro hok hs
    simp [environment_run, hro, hok, hs]

/-- Concrete data for the C6 and C10 witnesses. -/
def hook_rw : HookConfig :=
  { id := "fmt", environment := "python", command := "fmt", args := [], env_vars := []
    parameterize := true, types := ∅, limit := [], exclude := [], read_only := false }

def hook_ro : HookConfig :=
  { hook_rw with id := "lint", read_only := true }

def unit_rw : ExecutableUnit := { id := 0, hook := hook_rw, targets := {"a.py"} }

def unit_ro : ExecutableUnit := { id := 0, hook := hook_ro, targets := {"a.py"} }

def changed_file_drift : ChangedFile :=
  { path := "a.py", head_object_name := "h", index_object_name := "i",
    worktree_object_name := "w" }

def git_status_drift (_ts : Finset String) (i : Nat) : List ChangedFile :=
  if i = 0 then [] else [changed_file_drift]

/-- C6 witness: the theorem applied to a concrete non-read-only unit with a
drifting status. -/
theorem environment_run_change_detection_witness :
    unit_rw.hook.read_only = false ∧
    environment_run git_status_drift RunResult.ok unit_rw =
      (RunResult.modified,
        [RunOp.snapshot unit_rw.targets, RunOp.backend_run, RunOp.snapshot unit_rw.targets]) :=
  ⟨rfl, (environment_run_change_detection git_status_drift RunResult.ok unit_rw rfl).2.2.1
    rfl (by simp [git_status_drift])⟩

/-- C10: for a unit whose hook is read-only, `Environment.run` takes no VCS
status snapshot and returns exactly the backend's result; the backends only
produce `ok` or `error`, so such a run never surfaces `modified`, whatever
the two would-be snapshots contain. -/
theorem environment_run_read_only
    (git_status : Finset String → Nat → List ChangedFile)
    (returncode : Int) (unit : ExecutableUnit)
    (hro : unit.hook.read_only = true) :
    environment_run git_status (backend_run_result returncode) unit =
      (backend_run_result returncode, [RunOp.backend_run]) ∧
    backend_run_result returncode ≠ RunResult.modified ∧
    (∀ ts, RunOp.snapshot ts ∉
      (environment_run git_status (backend_run_result returncode) unit).2) := by
  have h1 : environment_run git_status (backend_run_result returncode) unit =
      (backend_run_result returncode, [RunOp.backend_run]) := by
    simp [environment_run, hro]
  refine ⟨h1, ?_, ?_⟩
  · unfold backend_run_result
    split <;> simp
  · intro ts
    rw [h1]
    simp

/-- C10 witness: the theorem applied to a concrete read-only unit whose
files drift between the two would-be snapshots. -/
theorem environment_run_read_only_witness :
    unit_ro.hook.read_only = true ∧
    environment_run git_status_drift (backend_run_result 0) unit_ro =
      (backend_run_result 0, [RunOp.backend_run]) ∧
    backend_run_result 0 ≠ RunResult.modified :=
  ⟨rfl, (environment_run_read_only git_status_drift 0 unit_ro rfl).1,
    (environment_run_read_only git_status_drift 0 unit_ro rfl).2.1⟩

/-! ## Target filtering (`src/goose/targets.py`) and unit planning
(`src/goose/parallel.py`) -/

/-- `_path_matches_patterns`: `search pat path` models
`re.compile(pat).search(path) is not None`. -/
def path_matches_patterns (search : String → String → Bool) (path : String)
    (patterns : List String) : Bool :=
  patterns.any (fun pat => search pat path)

/-- `_get_path_matcher(exclude, limit)`: the four specialized closures. -/
def get_path_matcher (search : String → String → Bool)
    (exclude limit : List String) (path : String) : Bool :=
  if exclude.isEmpty && limit.isEmpty then
    true
  else if limit.isEmpty then
    !(path_matches_patterns search path exclude)
  else if exclude.isEmpty then
    path_matches_patterns search path limit
  else
    path_matches_patterns search path limit && !(path_matches_patterns search path exclude)

/-- `filter_hook_targets(hook, targets)`: empty for non-parameterized
hooks; otherwise the paths of targets whose tags intersect `hook.types`
(when non-empty) and that pass the hook-level matcher, collected into a
`frozenset` (modelled as a deduplicated list, fixing one iteration
order). -/
def filter_hook_targets (search : String → String → Bool) (hook : HookConfig)
    (targets : List Target) : List String :=
  if !hook.parameterize then []
  else
    ((targets.filter (fun t =>
        (decide (hook.types = ∅) || decide ((t.tags ∩ hook.types).Nonempty))
          && get_path_matcher search hook.exclude hook.limit t.path)).map
      (fun t => t.path)).dedup

/-- `os.cpu_count() or 2`: `os.cpu_count()` may return `None`; `or` also
replaces a falsy `0`. -/
def cpu_count_or_two : Option Nat → Nat
  | none => 2
  | some n => if n = 0 then 2 else n

/-- `math.ceil(a / b)` for positive integers (the float division is exact
at the list sizes involved). -/
def ceil_div (a b : Nat) : Nat := (a + b - 1) / b

/-- `itertools.batched(l, n)` for `n ≥ 1`: successive chunks of `n`
elements, the last possibly shorter.  Implemented with a fuel counter
(`l.length` steps always suffice, each chunk consumes at least one
element) so that it computes by structural recursion. -/
def batched_aux (n : Nat) : Nat → List α → List (List α)
  | 0, _ => []
  | _ + 1, [] => []
  | fuel + 1, x :: xs => (x :: xs.take (n - 1)) :: batched_aux n fuel (xs.drop (n - 1))

def batched (l : List α) (n : Nat) : List (List α) := batched_aux n l.length l

/-- `hook_as_executable_units(hook, targets)` from `parallel.py`:
no units for a parameterized hook with no targets; one unit with an empty
target set for a non-parameterized hook; otherwise `batched` target chunks
of size `ceil(len / (os.cpu_count() or 2))`, enumerated from 0. -/
def hook_as_executable_units (search : String → String → Bool) (cpu_count : Option Nat)
    (hook : HookConfig) (targets : List Target) : List ExecutableUnit :=
  let target_files := filter_hook_targets search hook targets
  if hook.parameterize && target_files.isEmpty then []
  else if target_files.isEmpty then
    [{ id := 0, hook := hook, targets := ∅ }]
  else
    let process_count := cpu_count_or_two cpu_count
    let batch_size := ceil_div target_files.length process_count
    (batched target_files batch_size).enum.map
      (fun p => { id := p.1, hook := hook, targets := p.2.toFinset })

/-! ### Lemmas about `batched` -/

theorem batched_aux_fuel (n : Nat) :
    ∀ (k fuel1 fuel2 : Nat) (l : List α), l.length = k → k ≤ fuel1 → k ≤ fuel2 →
      batched_aux n fuel1 l = batched_aux n fuel2 l := by
  intro k
  induction k using Nat.strong_induction_on with
  | _ k ih =>
    intro fuel1 fuel2 l hk h1 h2
    cases l with
    | nil => cases fuel1 <;> cases fuel2 <;> rfl
    | cons x xs =>
      simp only [List.length_cons] at hk
      obtain ⟨f1, rfl⟩ : ∃ f, fuel1 = f + 1 := ⟨fuel1 - 1, by omega⟩
      obtain ⟨f2, rfl⟩ : ∃ f, fuel2 = f + 1 := ⟨fuel2 - 1, by omega⟩
      simp only [batched_aux]
      congr 1
      exact ih (xs.drop (n - 1)).length (by simp; omega) f1 f2 _ rfl
        (by simp; omega) (by simp; omega)

theorem batched_cons_raw (x : α) (xs : List α) (n : Nat) :
    batched (x :: xs) n = (x :: xs.take (n - 1)) :: batched (xs.drop (n - 1)) n := by
  unfold batched
  simp only [List.length_cons, batched_aux]
  congr 1
  exact batched_aux_fuel n (xs.drop (n - 1)).length xs.length (xs.drop (n - 1)).length _
    rfl (by simp) (le_refl _)

theorem batched_cons_eq (x : α) (xs : List α) (n : Nat) (hn : 1 ≤ n) :
    batched (x :: xs) n = (x :: xs).take n :: batched ((x :: xs).drop n) n := by
  obtain ⟨m, rfl⟩ : ∃ m, n = m + 1 := ⟨n - 1, by omega⟩
  rw [batched_cons_raw]
  simp

theorem batched_flatten (n : Nat) (hn : 1 ≤ n) (l : List α) :
    (batched l n).flatten = l := by
  suffices h : ∀ (k : Nat) (l : List α), l.length = k → (batched l n).flatten = l from
    h l.length l rfl
  intro k
  induction k using Nat.strong_induction_on with
  | _ k ih =>
    intro l hk
    cases l with
    | nil => simp [batched, batched_aux]
    | cons x xs =>
      simp only [List.length_cons] at hk
      rw [batched_cons_eq x xs n hn]
      rw [List.flatten_cons]
      rw [ih ((x :: xs).drop n).length (by simp; omega) _ rfl]
      exact List.take_append_drop n (x :: xs)

theorem batched_length (n : Nat) (hn : 1 ≤ n) (l : List α) (hl : l ≠ []) :
    (batched l n).length = (l.length - 1) / n + 1 := by
  suffices h : ∀ (k : Nat) (l : List α), l ≠ [] → l.length = k →
      (batched l n).length = (l.length - 1) / n + 1 from h l.length l hl rfl
  intro k
  induction k using Nat.strong_induction_on with
  | _ k ih =>
    intro l hl hk
    cases l with
    | nil => exact absurd rfl hl
    | cons x xs =>
      simp only [List.length_cons] at hk
      rw [batched_cons_eq x xs n hn]
      by_cases hd : (x :: xs).drop n = []
      · have h0 := congrArg List.length hd
        simp only [List.length_drop, List.length_cons, List.length_nil] at h0
        have hdiv : xs.length / n = 0 := Nat.div_eq_of_lt (by omega)
        rw [hd]
        simp [batched, batched_aux, hdiv]
      · have h0 : ¬((x :: xs).length ≤ n) := fun hle => hd (List.drop_eq_nil_of_le hle)
        simp only [List.length_cons] at h0
        rw [List.length_cons, ih ((x :: xs).drop n).length (by simp; omega) _ hd rfl]
        simp only [List.length_drop, List.length_cons]
        have h3 : xs.length + 1 - n - 1 = xs.length - n := by omega
        have h4 : xs.length + 1 - 1 = (xs.length - n) + n := by omega
        rw [h3, h4, Nat.add_div_right _ (by omega : 0 < n)]

theorem batched_mem_length (n : Nat) (hn : 1 ≤ n) (l : List α) (c : List α)
    (hc : c ∈ batched l n) : c.length ≤ n := by
  suffices h : ∀ (k : Nat) (l : List α), l.length = k → ∀ c ∈ batched l n, c.length ≤ n from
    h l.length l rfl c hc
  intro k
  induction k using Nat.strong_induction_on with
  | _ k ih =>
    intro l hk c hc
    cases l with
    | nil => simp [batched, batched_aux] at hc
    | cons x xs =>
      simp only [List.length_cons] at hk
      rw [batched_cons_eq x xs n hn] at hc
      rcases List.mem_cons.mp hc with h | h
      · subst h
        simp only [List.length_take, List.length_cons]
        omega
      · exact ih ((x :: xs).drop n).length (by simp; omega) _ rfl _ h

theorem batched_pairwise_disjoint (n : Nat) (hn : 1 ≤ n) (l : List α)
    (hnd : l.Nodup) : (batched l n).Pairwise List.Disjoint := by
  suffices h : ∀ (k : Nat) (l : List α), l.Nodup → l.length = k →
      (batched l n).Pairwise List.Disjoint from h l.length l hnd rfl
  intro k
  induction k using Nat.strong_induction_on with
  | _ k ih =>
    intro l hnd hk
    cases l with
    | nil => simp [batched, batched_aux]
    | cons x xs =>
      simp only [List.length_cons] at hk
      rw [batched_cons_eq x xs n hn]
      refine List.Pairwise.cons ?_ ?_
      · intro c hc a ha hac
        have hsplit : ((x :: xs).take n ++ (x :: xs).drop n).Nodup := by
          rw [List.take_append_drop]; exact hnd
        have hdisj := (List.nodup_append.mp hsplit).2.2
        have hmem : a ∈ (x :: xs).drop n := by
          have := batched_flatten n hn ((x :: xs).drop n)
          rw [← this]
          exact List.mem_flatten.mpr ⟨c, hc, hac⟩
        exact hdisj ha hmem
      · exact ih ((x :: xs).drop n).length (by simp; omega) _
          (hnd.sublist (List.drop_sublist n (x :: xs))) rfl

theorem cpu_count_or_two_pos (c : Option Nat) : 1 ≤ cpu_count_or_two c := by
  cases c with
  | none => simp [cpu_count_or_two]
  | some n =>
    simp only [cpu_count_or_two]
    split <;> omega

theorem ceil_div_eq (m k : Nat) (hm : 1 ≤ m) (hk : 1 ≤ k) :
    ceil_div m k = (m - 1) / k + 1 := by
  unfold ceil_div
  have h : m + k - 1 = (m - 1) + k := by omega
  rw [h, Nat.add_div_right _ (by omega : 0 < k)]

theorem ceil_div_pos (m k : Nat) (hm : 1 ≤ m) (hk : 1 ≤ k) : 1 ≤ ceil_div m k := by
  rw [ceil_div_eq m k hm hk]
  exact Nat.le_add_left 1 _

theorem foldr_union_toFinset [DecidableEq α] (L : List (List α)) :
    (L.map List.toFinset).foldr (fun a b => a ∪ b) ∅ = L.flatten.toFinset := by
  induction L with
  | nil => simp
  | cons c L ih => simp [ih]

theorem disjoint_toFinset_inter [DecidableEq α] {c d : List α} (h : List.Disjoint c d) :
    c.toFinset ∩ d.toFinset = ∅ := by
  apply Finset.eq_empty_iff_forall_not_mem.mpr
  intro x hx
  rcases Finset.mem_inter.mp hx with ⟨h1, h2⟩
  exact h (List.mem_toFinset.mp h1) (List.mem_toFinset.mp h2)

/-- C5 (amended): for a parameterized hook with a non-empty filtered target
list of n files, with `P = os.cpu_count() or 2` (the CPU count when
positive, else 2 — not `max(cpu, 2)`) and `batch_size = ceil(n / P)`, the
planner emits exactly `ceil(n / batch_size)` units, each carrying at most
`batch_size` targets, with ids running consecutively from 0, and the units'
target sets partition the filtered target set (pairwise disjoint, union
equal to it). -/
theorem hook_units_batching (search : String → String → Bool) (cpu_count : Option Nat)
    (hook : HookConfig) (targets : List Target)
    (hpar : hook.parameterize = true)
    (hne : filter_hook_targets search hook targets ≠ []) :
    (hook_as_executable_units search cpu_count hook targets).length =
      ceil_div (filter_hook_targets search hook targets).length
        (ceil_div (filter_hook_targets search hook targets).length
          (cpu_count_or_two cpu_count)) ∧
    (∀ u ∈ hook_as_executable_units search cpu_count hook targets,
      u.targets.card ≤
        ceil_div (filter_hook_targets search hook targets).length
          (cpu_count_or_two cpu_count)) ∧
    (hook_as_executable_units search cpu_count hook targets).map (fun u => u.id) =
      List.range (hook_as_executable_units search cpu_count hook targets).length ∧
    ((hook_as_executable_units search cpu_count hook targets).map (fun u => u.targets)).foldr
        (fun a b => a ∪ b) ∅ =
      (filter_hook_targets search hook targets).toFinset ∧
    (hook_as_executable_units search cpu_count hook targets).Pairwise
      (fun u v => u.targets ∩ v.targets = ∅) := by
  set tf := filter_hook_targets search hook targets with htf
  have htf_len : 1 ≤ tf.length := by
    cases hcase : tf with
    | nil => exact absurd hcase hne
    | cons a t => simp [hcase]
  have hie : tf.isEmpty = false := by
    cases hcase : tf with
    | nil => exact absurd hcase hne
    | cons a t => rfl
  have hP : 1 ≤ cpu_count_or_two cpu_count := cpu_count_or_two_pos cpu_count
  set b := ceil_div tf.length (cpu_count_or_two cpu_count) with hbdef
  have hb : 1 ≤ b := ceil_div_pos _ _ htf_len hP
  have hunits : hook_as_executable_units search cpu_count hook targets =
      (batched tf b).enum.map
        (fun p => { id := p.1, hook := hook, targets := p.2.toFinset }) := by
    unfold hook_as_executable_units
    rw [← htf]
    simp [hie, hpar, ← hbdef]
  have hmapt : (hook_as_executable_units search cpu_count hook targets).map
      (fun u => u.targets) = (batched tf b).map List.toFinset := by
    rw [hunits, List.map_map]
    calc (batched tf b).enum.map
          ((fun u : ExecutableUnit => u.targets) ∘
            (fun p : Nat × List String =>
              { id := p.1, hook := hook, targets := p.2.toFinset }))
        = ((batched tf b).enum.map Prod.snd).map List.toFinset := by
          rw [List.map_map]; rfl
      _ = (batched tf b).map List.toFinset := by rw [List.enum_map_snd]
  refine ⟨?_, ?_, ?_, ?_, ?_⟩
  · rw [hunits, List.length_map, List.enum_length, batched_length b hb tf hne,
      ceil_div_eq tf.length b htf_len hb]
  · intro u hu
    have hmem : u.targets ∈ (batched tf b).map List.toFinset := by
      rw [← hmapt]
      exact List.mem_map.mpr ⟨u, hu, rfl⟩
    rcases List.mem_map.mp hmem with ⟨c, hc, hceq⟩
    rw [← hceq]
    calc c.toFinset.card ≤ c.length := List.toFinset_card_le c
      _ ≤ b := batched_mem_length b hb tf c hc
  · rw [hunits, List.map_map, List.length_map, List.enum_length]
    calc (batched tf b).enum.map
          ((fun u : ExecutableUnit => u.id) ∘
            (fun p : Nat × List String =>
              { id := p.1, hook := hook, targets := p.2.toFinset }))
        = (batched tf b).enum.map Prod.fst := rfl
      _ = List.range (batched tf b).length := List.enum_map_fst _
  · rw [hmapt, foldr_union_toFinset, batched_flatten b hb tf]
  · have hnd : tf.Nodup := by
      rw [htf]
      unfold filter_hook_targets
      split
      · simp
      · exact List.nodup_dedup _
    have hpw : ((batched tf b).map List.toFinset).Pairwise
        (fun s t => s ∩ t = ∅) := by
      rw [List.pairwise_map]
      exact (batched_pairwise_disjoint b hb tf hnd).imp
        (fun h => disjoint_toFinset_inter h)
    rw [← hmapt, List.pairwise_map] at hpw
    exact hpw

/-- Concrete data for the C5 counterexample and witness. -/
def search_none (_pat _path : String) : Bool := false

def targets_two : List Target :=
  [{ path := "a.py", tags := ∅ }, { path := "b.py", tags := ∅ }]

/-- C5 counterexample: on a single-CPU machine (`os.cpu_count() = 1`) the
code computes `P = 1` (`cpu_count or 2`), giving batch size 2 and a single
unit for two target files, whereas the claim's `P = max(available_cpu_count,
2) = 2` would give batch size 1 and two units. -/
theorem hook_units_cpu_one_counterexample :
    (hook_as_executable_units search_none (some 1) hook_rw targets_two).length = 1 ∧
    ceil_div (filter_hook_targets search_none hook_rw targets_two).length
        (ceil_div (filter_hook_targets search_none hook_rw targets_two).length
          (max 1 2)) = 2 := by
  constructor <;> decide

/-- C5 witness: the amended statement at `os.cpu_count() = 3` and two
target files. -/
theorem hook_units_batching_witness :
    hook_rw.parameterize = true ∧
    filter_hook_targets search_none hook_rw targets_two ≠ [] ∧
    (hook_as_executable_units search_none (some 3) hook_rw targets_two).length =
      ceil_div (filter_hook_targets search_none hook_rw targets_two).length
        (ceil_div (filter_hook_targets search_none hook_rw targets_two).length
          (cpu_count_or_two (some 3))) :=
  ⟨rfl, by decide,
    (hook_units_batching search_none (some 3) hook_rw targets_two rfl (by decide)).1⟩

/-! ## VCS status parsing (`src/goose/git/status.py`) -/

/-- `ChangeKind`: the leading field of a porcelain-v2 changed entry. -/
inductive ChangeKind
  | modified
  | renamed
  | unmerged
deriving DecidableEq

/-- `ChangeKind(change_part)`: `none` models the `ValueError` on an
unknown discriminator. -/
def parse_change_kind : String → Option ChangeKind
  | "1" => some ChangeKind.modified
  | "2" => some ChangeKind.renamed
  | "u" => some ChangeKind.unmerged
  | _ => none

/-- `_read_fs_codes`. -/
def read_fs_codes : List String :=
  [".A", ".M", "MM", "MT", "TM", "TT", "AM", "AT", "RM", "RT", "CM", "CT", ".T", ".R", ".C"]

/-- `_use_index_codes`. -/
def use_index_codes : List String := ["M.", "T.", "A.", "R.", "C."]

/-- `_skip_codes`. -/
def skip_codes : List String := [".D", "MD", "TD", "AD", "RD", "CD", "D."]

/-- The fields of one nul-separated porcelain-v2 entry that
`_changed_files_from_output` unpacks (`entry.split(" ")`; the three mode
fields and the rename score are unused there). -/
structure StatusEntry where
  change_part : String
  status_part : String
  submodule_state : String
  head_object_name : String
  index_object_name : String
  path_part : String
deriving DecidableEq

/-- One nul-separated token of the `-z` stream: a full entry, or the bare
origin-path token that follows a renamed entry. -/
inductive StatusToken
  | entry (e : StatusEntry)
  | path_token (p : String)
deriving DecidableEq

/-- The failures the parser can raise: `NotImplementedError` for
submodules and unexpected status codes, `ValueError` for an unknown change
kind, and unpacking/iteration failures. -/
inductive ParseFailure
  | submodules_not_supported
  | unexpected_file_status (code : String)
  | invalid_change_kind (code : String)
  | malformed_entry
deriving DecidableEq

/-- The `ChangedFile` yielded for one entry, given the chosen worktree
object name. -/
def changed_file_of_entry (e : StatusEntry) (worktree : String) : ChangedFile :=
  { path := e.path_part, head_object_name := e.head_object_name,
    index_object_name := e.index_object_name, worktree_object_name := worktree }

/-- The status-code dispatch of `_changed_files_from_output`: hash the
worktree file for `_read_fs_codes`, reuse the index object id for
`_use_index_codes`, skip (`none`) for `_skip_codes`, otherwise raise. -/
def entry_changed_file (get_git_hash : String → String) (e : StatusEntry) :
    Except ParseFailure (Option ChangedFile) :=
  if e.status_part ∈ read_fs_codes then
    Except.ok (some (changed_file_of_entry e (get_git_hash e.path_part)))
  else if e.status_part ∈ use_index_codes then
    Except.ok (some (changed_file_of_entry e e.index_object_name))
  else if e.status_part ∈ skip_codes then
    Except.ok none
  else
    Except.error (ParseFailure.unexpected_file_status e.status_part)

/-- `yield` plus the surrounding generator plumbing: a failing entry or a
failing tail aborts the whole collection (the exception propagates out of
`get_git_status`); a skipped entry contributes nothing. -/
def except_prepend (head : Except ParseFailure (Option ChangedFile))
    (tail : Except ParseFailure (List ChangedFile)) : Except ParseFailure (List ChangedFile) :=
  match head with
  | Except.error f => Except.error f
  | Except.ok none => tail
  | Except.ok (some cf) =>
    match tail with
    | Except.error f => Except.error f
    | Except.ok l => Except.ok (cf :: l)

/-- `_changed_files_from_output(output)` over the nul-split tokens: check
the submodule field first; dispatch on `ChangeKind(change_part)` (written
as an if-chain): skip unmerged entries (`continue`), consume the following
origin-path token for renamed entries (`next(nil_parts)`, an exhausted
stream failing), then apply the status-code dispatch. -/
def changed_files_from_output (get_git_hash : String → String) :
    List StatusToken → Except ParseFailure (List ChangedFile)
  | [] => Except.ok []
  | StatusToken.path_token _ :: _ => Except.error ParseFailure.malformed_entry
  | [StatusToken.entry e] =>
    if e.submodule_state ≠ "N..." then
      Except.error ParseFailure.submodules_not_supported
    else if parse_change_kind e.change_part = none then
      Except.error (ParseFailure.invalid_change_kind e.change_part)
    else if parse_change_kind e.change_part = some ChangeKind.unmerged then
      Except.ok []
    else if parse_change_kind e.change_part = some ChangeKind.renamed then
      Except.error ParseFailure.malformed_entry
    else
      except_prepend (entry_changed_file get_git_hash e) (Except.ok [])
  | StatusToken.entry e :: t :: rest2 =>
    if e.submodule_state ≠ "N..." then
      Except.error ParseFailure.submodules_not_supported
    else if parse_change_kind e.change_part = none then
      Except.error (ParseFailure.invalid_change_kind e.change_part)
    else if parse_change_kind e.change_part = some ChangeKind.unmerged then
      changed_files_from_output get_git_hash (t :: rest2)
    else if parse_change_kind e.change_part = some ChangeKind.renamed then
      except_prepend (entry_changed_file get_git_hash e)
        (changed_files_from_output get_git_hash rest2)
    else
      except_prepend (entry_changed_file get_git_hash e)
        (changed_files_from_output get_git_hash (t :: rest2))

/-- Concatenation of per-line results with error propagation. -/
def except_append (a b : Except ParseFailure (List ChangedFile)) :
    Except ParseFailure (List ChangedFile) :=
  match a with
  | Except.error f => Except.error f
  | Except.ok l1 =>
    match b with
    | Except.error f => Except.error f
    | Except.ok l2 => Except.ok (l1 ++ l2)

/-- One line as read by `_parse_changed_files`: its first character
(`marker`) decides filtering, its nul-split tokens feed
`_changed_files_from_output`.  Header lines start with `"#"`, ignored
files with `"!"`, untracked files with `"?"`. -/
structure StatusLine where
  marker : String
  tokens : List StatusToken
deriving DecidableEq

/-- `_parse_changed_files(stream)`: skip header, ignored and untracked
lines, parse the rest. -/
def parse_changed_files (get_git_hash : String → String) :
    List StatusLine → Except ParseFailure (List ChangedFile)
  | [] => Except.ok []
  | line :: rest =>
    if line.marker = "#" || line.marker = "!" || line.marker = "?" then
      parse_changed_files get_git_hash rest
    else
      except_append (changed_files_from_output get_git_hash line.tokens)
        (parse_changed_files get_git_hash rest)

/-- Concrete data for the C9 counterexample and witness. -/
def git_hash_const (_p : String) : String := "W"

def entry_unmerged : StatusEntry :=
  { change_part := "u", status_part := "UU", submodule_state := "N...",
    head_object_name := "h1", index_object_name := "i1", path_part := "conflict.py" }

def line_unmerged : StatusLine :=
  { marker := "u", tokens := [StatusToken.entry entry_unmerged] }

def line_untracked : StatusLine :=
  { marker := "?", tokens := [StatusToken.path_token "new.py"] }

def entry_submodule : StatusEntry :=
  { change_part := "1", status_part := ".M", submodule_state := "S...",
    head_object_name := "h2", index_object_name := "i2", path_part := "sub" }

/-- C9 counterexample: a non-submodule unmerged entry is silently skipped
(`continue`), and an untracked line (leading `"?"`) is silently filtered
out — neither raises the not-supported failure the claim requires. -/
theorem git_status_skips_unmerged_and_untracked :
    parse_changed_files git_hash_const [line_unmerged] = Except.ok [] ∧
    parse_changed_files git_hash_const [line_untracked] = Except.ok [] := by
  constructor <;> rfl

/-- C9 (amended): the parser raises the not-supported failure for every
submodule entry and for every unexpected status code; non-submodule
unmerged entries are skipped without any failure; and untracked (`"?"`),
ignored (`"!"`) and header (`"#"`) lines are filtered out without any
failure. -/
theorem git_status_parser_failures (get_git_hash : String → String) :
    (∀ (e : StatusEntry) (rest : List StatusToken), e.submodule_state ≠ "N..." →
      changed_files_from_output get_git_hash (StatusToken.entry e :: rest) =
        Except.error ParseFailure.submodules_not_supported) ∧
    (∀ (e : StatusEntry) (rest : List StatusToken), e.submodule_state = "N..." →
      e.change_part = "u" →
      changed_files_from_output get_git_hash (StatusToken.entry e :: rest) =
        changed_files_from_output get_git_hash rest) ∧
    (∀ (line : StatusLine) (rest : List StatusLine),
      line.marker = "#" ∨ line.marker = "!" ∨ line.marker = "?" →
      parse_changed_files get_git_hash (line :: rest) =
        parse_changed_files get_git_hash rest) ∧
    (∀ (e : StatusEntry) (rest : List StatusToken), e.submodule_state = "N..." →
      e.change_part = "1" →
      e.status_part ∉ read_fs_codes → e.status_part ∉ use_index_codes →
      e.status_part ∉ skip_codes →
      changed_files_from_output get_git_hash (StatusToken.entry e :: rest) =
        Except.error (ParseFailure.unexpected_file_status e.status_part)) := by
  refine ⟨?_, ?_, ?_, ?_⟩
  · intro e rest hsub
    cases rest <;> simp [changed_files_from_output, hsub]
  · intro e rest hsub hu
    cases rest <;> simp [changed_files_from_output, hsub, hu, parse_change_kind]
  · intro line rest hm
    rcases hm with h | h | h <;> simp [parse_changed_files, h]
  · intro e rest hsub h1 hrfs hidx hskip
    cases rest <;>
      simp [changed_files_from_output, hsub, h1, parse_change_kind,
        entry_changed_file, except_prepend, hrfs, hidx, hskip]

/-- C9 witness: the amended statement at a concrete submodule entry. -/
theorem git_status_parser_failures_witness :
    entry_submodule.submodule_state ≠ "N..." ∧
    changed_files_from_output git_hash_const [StatusToken.entry entry_submodule] =
      Except.error ParseFailure.submodules_not_supported :=
  ⟨by decide, (git_status_parser_failures git_hash_const).1 entry_submodule [] (by decide)⟩

/-! ## Scheduler (`src/goose/scheduler.py`) -/

/-- The scheduler's internal state: `_remaining_units` (a list in plan
order), `_running_units` (dict keys in insertion order; the task handles
are immaterial to scheduling) and `_results` (unit/result pairs in
insertion order). -/
structure SchedulerState where
  remaining : List ExecutableUnit
  running : List ExecutableUnit
  results : List (ExecutableUnit × RunResult)
deriving DecidableEq

/-- `frozenset(chain(*(unit.targets for unit in self._running_units)))`. -/
def running_file_set (running : List ExecutableUnit) : Finset String :=
  running.foldr (fun u acc => u.targets ∪ acc) ∅

/-- The three admission rules of `_schedule_max`, tested against the live
running set: empty running set, disjoint file sets, or all-read-only. -/
def admission_allowed (unit : ExecutableUnit) (running : List ExecutableUnit) : Bool :=
  running.isEmpty
    || decide (unit.targets ∩ running_file_set running = ∅)
    || (unit.hook.read_only && running.all (fun r => r.hook.read_only))

/-- `_schedule_unit`: remove the unit from `_remaining_units`
(`list.remove` = first-match erase) and append it to `_running_units`. -/
def schedule_unit_state (unit : ExecutableUnit) (s : SchedulerState) : SchedulerState :=
  { remaining := s.remaining.erase unit
    running := s.running ++ [unit]
    results := s.results }

/-- `_schedule_max`: walk a snapshot of `_remaining_units`; stop at
capacity (`return`, not `continue`); admit a candidate when `admission_allowed`
holds against the live running set, otherwise move on.  Returns the
admission log — each admitted unit paired with the running list at its
admission — together with the final state. -/
def schedule_max (max_running : Nat) :
    List ExecutableUnit → SchedulerState →
      List (ExecutableUnit × List ExecutableUnit) × SchedulerState
  | [], s => ([], s)
  | unit :: rest, s =>
    if max_running ≤ s.running.length then ([], s)
    else if admission_allowed unit s.running then
      ((unit, s.running) :: (schedule_max max_running rest (schedule_unit_state unit s)).1,
        (schedule_max max_running rest (schedule_unit_state unit s)).2)
    else schedule_max max_running rest s

/-- `_prune_running` after `asyncio.wait(..., FIRST_COMPLETED)`: the done
units are appended to `_results`, and every unit whose key is in
`_results` is deleted from `_running_units`. -/
def prune_running (s : SchedulerState) (done : List ExecutableUnit)
    (res : ExecutableUnit → RunResult) : SchedulerState :=
  { remaining := s.remaining
    running := s.running.filter (fun u =>
      !((s.results ++ done.map (fun v => (v, res v))).any (fun p => decide (p.1 = u))))
    results := s.results ++ done.map (fun v => (v, res v)) }

/-- `UnitScheduled | UnitFinished`. -/
inductive SchedulerEvent
  | unit_scheduled (unit : ExecutableUnit)
  | unit_finished (unit : ExecutableUnit) (result : RunResult)
deriving DecidableEq

/-- The event stream of `until_complete` as a relation between a starting
state, the emitted events and the final state.  The first constructor pair
mirrors the `while self._remaining_units` loop (schedule, then either
break to the drain loop or wait for completions), the `drain` constructor
the trailing `while self._running_units` loop.  Which running tasks
complete at a wait point (`done`, a non-empty subsequence of the running
list) and with what results (`res`) is chosen by the environment. -/
inductive UntilComplete (max_running : Nat) :
    SchedulerState → List SchedulerEvent → SchedulerState → Prop
  | stop (s : SchedulerState)
      (h1 : s.remaining = []) (h2 : s.running = []) :
      UntilComplete max_running s [] s
  | drain (s : SchedulerState) (done : List ExecutableUnit)
      (res : ExecutableUnit → RunResult)
      (events : List SchedulerEvent) (final : SchedulerState)
      (h1 : s.remaining = []) (h2 : s.running ≠ []) (h3 : done ≠ [])
      (h4 : done.Sublist s.running)
      (h5 : UntilComplete max_running (prune_running s done res) events final) :
      UntilComplete max_running s
        (done.map (fun u => SchedulerEvent.unit_finished u (res u)) ++ events) final
  | sched_last (s : SchedulerState)
      (adm : List (ExecutableUnit × List ExecutableUnit)) (s1 : SchedulerState)
      (events : List SchedulerEvent) (final : SchedulerState)
      (h1 : s.remaining ≠ []) (h2 : schedule_max max_running s.remaining s = (adm, s1))
      (h3 : s1.remaining = [])
      (h4 : UntilComplete max_running s1 events final) :
      UntilComplete max_running s
        (adm.map (fun p => SchedulerEvent.unit_scheduled p.1) ++ events) final
  | sched_wait (s : SchedulerState)
      (adm : List (ExecutableUnit × List ExecutableUnit)) (s1 : SchedulerState)
      (done : List ExecutableUnit) (res : ExecutableUnit → RunResult)
      (events : List SchedulerEvent) (final : SchedulerState)
      (h1 : s.remaining ≠ []) (h2 : schedule_max max_running s.remaining s = (adm, s1))
      (h3 : s1.remaining ≠ []) (h4 : done ≠ []) (h5 : done.Sublist s1.running)
      (h6 : UntilComplete max_running (prune_running s1 done res) events final) :
      UntilComplete max_running s
        (adm.map (fun p => SchedulerEvent.unit_scheduled p.1) ++
          (done.map (fun u => SchedulerEvent.unit_finished u (res u)) ++ events)) final

/-! ### C3: the admission invariant -/

theorem admission_allowed_spec (unit : ExecutableUnit) (running : List ExecutableUnit)
    (h : admission_allowed unit running = true) :
    unit.targets ∩ running_file_set running = ∅ ∨
      (unit.hook.read_only = true ∧ ∀ r ∈ running, r.hook.read_only = true) := by
  unfold admission_allowed at h
  rcases Bool.or_eq_true_iff.mp h with h' | h'
  · rcases Bool.or_eq_true_iff.mp h' with he | hd
    · left
      have : running = [] := by
        cases running with
        | nil => rfl
        | cons a t => simp [List.isEmpty] at he
      subst this
      simp [running_file_set]
    · left
      exact of_decide_eq_true hd
  · right
    rcases Bool.and_eq_true_iff.mp h' with ⟨hro, hall⟩
    exact ⟨hro, fun r hr => List.all_eq_true.mp hall r hr⟩

/-- C3: every unit admitted by `_schedule_max` — and `until_complete`
admits units only through `_schedule_max` (constructors `sched_last` and
`sched_wait` of `UntilComplete`) — had, at the moment of its admission
against the running set `R`, either a target set disjoint from the union
of the running units' target sets, or was read-only together with every
running unit. -/
theorem schedule_max_admission_invariant (max_running : Nat)
    (snap : List ExecutableUnit) (s : SchedulerState)
    (adm : List (ExecutableUnit × List ExecutableUnit)) (s1 : SchedulerState)
    (h : schedule_max max_running snap s = (adm, s1))
    (unit : ExecutableUnit) (R : List ExecutableUnit)
    (hmem : (unit, R) ∈ adm) :
    unit.targets ∩ running_file_set R = ∅ ∨
      (unit.hook.read_only = true ∧ ∀ r ∈ R, r.hook.read_only = true) := by
  induction snap generalizing s adm s1 with
  | nil =>
    simp only [schedule_max] at h
    injection h with ha hs
    subst ha
    simp at hmem
  | cons cand rest ih =>
    simp only [schedule_max] at h
    split at h
    · injection h with ha hs
      subst ha
      simp at hmem
    · split at h
      next hadm =>
        injection h with ha hs
        subst ha
        rcases List.mem_cons.mp hmem with heq | hmem'
        · have h1 : unit = cand := congrArg Prod.fst heq
          have h2 : R = s.running := congrArg Prod.snd heq
          subst h1
          subst h2
          exact admission_allowed_spec unit s.running hadm
        · exact ih (schedule_unit_state cand s) _ _ rfl hmem'
      next =>
        exact ih s _ _ h hmem

/-- C3 witness: the invariant at the admission of a concrete unit into an
idle scheduler. -/
theorem schedule_max_admission_invariant_witness :
    unit_rw.targets ∩ running_file_set [] = ∅ ∨
      (unit_rw.hook.read_only = true ∧
        ∀ r ∈ ([] : List ExecutableUnit), r.hook.read_only = true) :=
  schedule_max_admission_invariant 1 [unit_rw]
    { remaining := [unit_rw], running := [], results := [] }
    [(unit_rw, [])] { remaining := [], running := [unit_rw], results := [] }
    (by decide) unit_rw [] (by decide)

/-! ### Counting units and events (towards C4) -/

def count_unit (u : ExecutableUnit) (l : List ExecutableUnit) : Nat :=
  l.countP (fun v => decide (v = u))

def count_scheduled (u : ExecutableUnit) (events : List SchedulerEvent) : Nat :=
  events.countP (fun ev => decide (ev = SchedulerEvent.unit_scheduled u))

def count_finished (u : ExecutableUnit) (events : List SchedulerEvent) : Nat :=
  events.countP (fun ev =>
    match ev with
    | SchedulerEvent.unit_finished v _ => decide (v = u)
    | _ => false)

theorem count_unit_append (u : ExecutableUnit) (l1 l2 : List ExecutableUnit) :
    count_unit u (l1 ++ l2) = count_unit u l1 + count_unit u l2 := by
  simp [count_unit, List.countP_append]

theorem count_unit_pos (u : ExecutableUnit) (l : List ExecutableUnit) :
    0 < count_unit u l ↔ u ∈ l := by
  unfold count_unit
  rw [List.countP_pos_iff]
  constructor
  · rintro ⟨a, ha, hp⟩
    have he : a = u := of_decide_eq_true hp
    exact he ▸ ha
  · intro h
    exact ⟨u, h, by simp⟩

theorem count_unit_eq_zero (u : ExecutableUnit) (l : List ExecutableUnit) :
    count_unit u l = 0 ↔ u ∉ l := by
  constructor
  · intro h hm
    have := (count_unit_pos u l).mpr hm
    omega
  · intro h
    by_contra hne
    exact h ((count_unit_pos u l).mp (Nat.pos_of_ne_zero hne))

theorem count_unit_le_one (u : ExecutableUnit) (l : List ExecutableUnit) (h : l.Nodup) :
    count_unit u l ≤ 1 := by
  induction l with
  | nil => simp [count_unit]
  | cons a t ih =>
    rcases List.nodup_cons.mp h with ⟨hna, hnd⟩
    unfold count_unit at ih ⊢
    rw [List.countP_cons]
    by_cases hau : a = u
    · subst hau
      have hz : count_unit a t = 0 := (count_unit_eq_zero a t).mpr hna
      unfold count_unit at hz
      simp [hz]
    · simp [hau]
      exact ih hnd

theorem count_unit_cons (u a : ExecutableUnit) (t : List ExecutableUnit) :
    count_unit u (a :: t) = count_unit u t + (if a = u then 1 else 0) := by
  unfold count_unit
  rw [List.countP_cons]
  by_cases h : a = u <;> simp [h]

theorem count_unit_erase (u v : ExecutableUnit) (l : List ExecutableUnit) :
    count_unit u (l.erase v) = count_unit u l - (if v = u then 1 else 0) := by
  induction l with
  | nil => simp [count_unit]
  | cons a t ih =>
    rw [List.erase_cons]
    by_cases hav : a = v
    · subst hav
      rw [if_pos (by simp), count_unit_cons]
      by_cases hau : a = u <;> simp [hau]
    · rw [if_neg (by simp [hav]), count_unit_cons, count_unit_cons, ih]
      by_cases hvu : v = u
      · have hau : a ≠ u := fun he => hav (he.trans hvu.symm)
        simp only [hvu, hau, if_true, if_false]
        omega
      · simp [hvu]

theorem count_unit_filter (u : ExecutableUnit) (l : List ExecutableUnit)
    (p : ExecutableUnit → Bool) :
    count_unit u (l.filter p) = if p u then count_unit u l else 0 := by
  induction l with
  | nil => simp [count_unit]
  | cons a t ih =>
    rw [List.filter_cons]
    by_cases hp : p a
    · rw [if_pos hp, count_unit_cons, ih]
      by_cases hau : a = u
      · subst hau
        rw [if_pos hp, if_pos hp, count_unit_cons, if_pos rfl]
      · simp only [hau, if_false, Nat.add_zero]
        by_cases hpu : p u
        · rw [if_pos hpu, if_pos hpu, count_unit_cons]
          simp [hau]
        · rw [if_neg hpu, if_neg hpu]
    · rw [if_neg hp, ih]
      by_cases hpu : p u
      · rw [if_pos hpu, if_pos hpu, count_unit_cons]
        have hau : a ≠ u := fun he => hp (he ▸ hpu)
        simp [hau]
      · rw [if_neg hpu, if_neg hpu]

theorem count_scheduled_append (u : ExecutableUnit) (l1 l2 : List SchedulerEvent) :
    count_scheduled u (l1 ++ l2) = count_scheduled u l1 + count_scheduled u l2 := by
  simp [count_scheduled, List.countP_append]

theorem count_finished_append (u : ExecutableUnit) (l1 l2 : List SchedulerEvent) :
    count_finished u (l1 ++ l2) = count_finished u l1 + count_finished u l2 := by
  simp [count_finished, List.countP_append]

theorem count_scheduled_sched_map (u : ExecutableUnit)
    (adm : List (ExecutableUnit × List ExecutableUnit)) :
    count_scheduled u (adm.map (fun p => SchedulerEvent.unit_scheduled p.1)) =
      count_unit u (adm.map Prod.fst) := by
  induction adm with
  | nil => rfl
  | cons a t ih =>
    simp only [List.map_cons]
    unfold count_scheduled count_unit at ih ⊢
    rw [List.countP_cons, List.countP_cons, ih]
    congr 1
    by_cases h : a.1 = u <;> simp [h]

theorem count_finished_sched_map (u : ExecutableUnit)
    (adm : List (ExecutableUnit × List ExecutableUnit)) :
    count_finished u (adm.map (fun p => SchedulerEvent.unit_scheduled p.1)) = 0 := by
  induction adm with
  | nil => rfl
  | cons a t ih =>
    simp only [List.map_cons]
    unfold count_finished at ih ⊢
    rw [List.countP_cons, ih]
    simp

theorem count_scheduled_fin_map (u : ExecutableUnit) (done : List ExecutableUnit)
    (res : ExecutableUnit → RunResult) :
    count_scheduled u (done.map (fun v => SchedulerEvent.unit_finished v (res v))) = 0 := by
  induction done with
  | nil => rfl
  | cons a t ih =>
    simp only [List.map_cons]
    unfold count_scheduled at ih ⊢
    rw [List.countP_cons, ih]
    simp

theorem count_finished_fin_map (u : ExecutableUnit) (done : List ExecutableUnit)
    (res : ExecutableUnit → RunResult) :
    count_finished u (done.map (fun v => SchedulerEvent.unit_finished v (res v))) =
      count_unit u done := by
  induction done with
  | nil => rfl
  | cons a t ih =>
    simp only [List.map_cons]
    unfold count_finished count_unit at ih ⊢
    rw [List.countP_cons, List.countP_cons, ih]

theorem exists_scheduled_of_pos (u : ExecutableUnit) (events : List SchedulerEvent)
    (h : 0 < count_scheduled u events) :
    SchedulerEvent.unit_scheduled u ∈ events := by
  unfold count_scheduled at h
  rw [List.countP_pos_iff] at h
  rcases h with ⟨ev, hev, hp⟩
  have he : ev = SchedulerEvent.unit_scheduled u := of_decide_eq_true hp
  exact he ▸ hev

theorem exists_finished_of_pos (u : ExecutableUnit) (events : List SchedulerEvent)
    (h : 0 < count_finished u events) :
    ∃ r, SchedulerEvent.unit_finished u r ∈ events := by
  unfold count_finished at h
  rw [List.countP_pos_iff] at h
  rcases h with ⟨ev, hev, hp⟩
  cases ev with
  | unit_scheduled v => simp at hp
  | unit_finished v r =>
    have he : v = u := of_decide_eq_true hp
    exact ⟨r, he ▸ hev⟩

/-! ### State bookkeeping lemmas (towards C4) -/

/-- The plan-conservation invariant: every unit occurs at most once across
`remaining`, `running` and the result keys. -/
def units_invariant (s : SchedulerState) : Prop :=
  ∀ u, count_unit u s.remaining + count_unit u s.running +
    count_unit u (s.results.map Prod.fst) ≤ 1

theorem sublist_erase_of_cons_sublist {a : ExecutableUnit}
    {l1 l2 : List ExecutableUnit} (h : (a :: l1).Sublist l2) :
    l1.Sublist (l2.erase a) := by
  induction l2 generalizing l1 with
  | nil => cases h
  | cons b t ih =>
    rw [List.erase_cons]
    by_cases hba : b = a
    · subst hba
      rw [if_pos (by simp)]
      cases h with
      | cons _ h' => exact List.sublist_of_cons_sublist h'
      | cons₂ _ h' => exact h'
    · rw [if_neg (by simp [hba])]
      cases h with
      | cons _ h' => exact List.Sublist.cons b (ih h')
      | cons₂ _ h' => exact absurd rfl hba

theorem schedule_max_spec (max_running : Nat) (snap : List ExecutableUnit)
    (s : SchedulerState) (adm : List (ExecutableUnit × List ExecutableUnit))
    (s1 : SchedulerState) (h : schedule_max max_running snap s = (adm, s1)) :
    s1.results = s.results ∧
    s1.running = s.running ++ adm.map Prod.fst ∧
    (snap.Sublist s.remaining →
      ∀ u, count_unit u s.remaining =
        count_unit u s1.remaining + count_unit u (adm.map Prod.fst)) := by
  induction snap generalizing s adm s1 with
  | nil =>
    simp only [schedule_max] at h
    injection h with ha hs
    subst ha
    subst hs
    refine ⟨rfl, by simp, ?_⟩
    intro _ u
    simp [count_unit]
  | cons cand rest ih =>
    simp only [schedule_max] at h
    split at h
    · injection h with ha hs
      subst ha
      subst hs
      refine ⟨rfl, by simp, ?_⟩
      intro _ u
      simp [count_unit]
    · split at h
      next hadm =>
        injection h with ha hs
        obtain ⟨admr, s2, hq⟩ :
            ∃ a b, schedule_max max_running rest (schedule_unit_state cand s) = (a, b) :=
          ⟨_, _, rfl⟩
        rw [hq] at ha hs
        simp only at ha hs
        subst ha
        subst hs
        have hihx := ih (schedule_unit_state cand s) admr s2 hq
        refine ⟨hihx.1, ?_, ?_⟩
        · rw [hihx.2.1]
          simp [schedule_unit_state, List.append_assoc]
        · intro hsub u
          have hcand_mem : cand ∈ s.remaining := hsub.subset (List.mem_cons_self cand rest)
          have hrest : rest.Sublist ((schedule_unit_state cand s).remaining) :=
            sublist_erase_of_cons_sublist hsub
          have hcount := hihx.2.2 hrest u
          rw [show (schedule_unit_state cand s).remaining = s.remaining.erase cand from rfl,
            count_unit_erase] at hcount
          have hmap : count_unit u (((cand, s.running) :: admr).map Prod.fst) =
              count_unit u (admr.map Prod.fst) + (if cand = u then 1 else 0) := by
            simp only [List.map_cons]
            rw [count_unit_cons]
          rw [hmap]
          by_cases hcu : cand = u
          · subst hcu
            have hpos : 0 < count_unit cand s.remaining :=
              (count_unit_pos cand s.remaining).mpr hcand_mem
            rw [if_pos rfl] at hcount
            rw [if_pos rfl]
            omega
          · simp only [if_neg hcu] at hcount ⊢
            omega
      next =>
        have hihx := ih s adm s1 h
        refine ⟨hihx.1, hihx.2.1, ?_⟩
        intro hsub u
        exact hihx.2.2 (List.sublist_of_cons_sublist hsub) u

theorem schedule_max_invariant (max_running : Nat) (snap : List ExecutableUnit)
    (s : SchedulerState) (adm : List (ExecutableUnit × List ExecutableUnit))
    (s1 : SchedulerState) (h : schedule_max max_running snap s = (adm, s1))
    (hsub : snap.Sublist s.remaining) (hinv : units_invariant s) :
    units_invariant s1 := by
  intro u
  have hspec := schedule_max_spec max_running snap s adm s1 h
  have hcount := hspec.2.2 hsub u
  have hrun : count_unit u s1.running =
      count_unit u s.running + count_unit u (adm.map Prod.fst) := by
    rw [hspec.2.1, count_unit_append]
  have hres : count_unit u (s1.results.map Prod.fst) =
      count_unit u (s.results.map Prod.fst) := by
    rw [hspec.1]
  have := hinv u
  omega

theorem prune_running_spec (s : SchedulerState) (done : List ExecutableUnit)
    (res : ExecutableUnit → RunResult)
    (hinv : units_invariant s) (hsub : done.Sublist s.running) :
    (prune_running s done res).remaining = s.remaining ∧
    (∀ u, count_unit u (prune_running s done res).running =
      count_unit u s.running - count_unit u done) ∧
    (∀ u, count_unit u ((prune_running s done res).results.map Prod.fst) =
      count_unit u (s.results.map Prod.fst) + count_unit u done) := by
  have hkeys : ∀ u : ExecutableUnit,
      ((s.results ++ done.map (fun v => (v, res v))).map Prod.fst) =
        s.results.map Prod.fst ++ done := by
    intro u
    rw [List.map_append, List.map_map]
    congr 1
    exact List.map_id done
  refine ⟨rfl, ?_, ?_⟩
  · intro u
    show count_unit u (s.running.filter _) = _
    rw [count_unit_filter]
    have hmem_iff : ((s.results ++ done.map (fun v => (v, res v))).any
        (fun p => decide (p.1 = u)) = true) ↔
        (u ∈ s.results.map Prod.fst ∨ u ∈ done) := by
      rw [List.any_eq_true]
      constructor
      · rintro ⟨p, hp, hdec⟩
        have he : p.1 = u := of_decide_eq_true hdec
        rcases List.mem_append.mp hp with h | h
        · exact Or.inl (he ▸ List.mem_map.mpr ⟨p, h, rfl⟩)
        · rcases List.mem_map.mp h with ⟨v, hv, hveq⟩
          right
          have : v = u := by rw [← he, ← hveq]
          exact this ▸ hv
      · rintro (h | h)
        · rcases List.mem_map.mp h with ⟨p, hp, hpeq⟩
          exact ⟨p, List.mem_append.mpr (Or.inl hp), by simp [hpeq]⟩
        · exact ⟨(u, res u), List.mem_append.mpr (Or.inr (List.mem_map.mpr ⟨u, h, rfl⟩)),
            by simp⟩
    by_cases hu : u ∈ s.results.map Prod.fst ∨ u ∈ done
    · rw [if_neg (by simp [hmem_iff.mpr hu])]
      rcases hu with h | h
      · have hz : count_unit u s.running = 0 := by
          have := hinv u
          have hpos : 0 < count_unit u (s.results.map Prod.fst) :=
            (count_unit_pos _ _).mpr h
          omega
        have hdz : count_unit u done ≤ count_unit u s.running := by
          unfold count_unit
          exact hsub.countP_le _
        omega
      · have h1 : 0 < count_unit u done := (count_unit_pos _ _).mpr h
        have h2 : count_unit u done ≤ count_unit u s.running := by
          unfold count_unit
          exact hsub.countP_le _
        have h3 : count_unit u s.running ≤ 1 := by
          have := hinv u
          omega
        omega
    · push_neg at hu
      rw [if_pos]
      · have hdz : count_unit u done = 0 := (count_unit_eq_zero _ _).mpr hu.2
        omega
      · simp only [Bool.not_eq_true']
        rw [← Bool.not_eq_true, hmem_iff]
        push_neg
        exact hu
  · intro u
    show count_unit u ((s.results ++ done.map (fun v => (v, res v))).map Prod.fst) = _
    rw [hkeys u, count_unit_append]

theorem prune_running_invariant (s : SchedulerState) (done : List ExecutableUnit)
    (res : ExecutableUnit → RunResult)
    (hinv : units_invariant s) (hsub : done.Sublist s.running) :
    units_invariant (prune_running s done res) := by
  intro u
  have hspec := prune_running_spec s done res hinv hsub
  have h1 := hspec.1
  have h2 := hspec.2.1 u
  have h3 := hspec.2.2 u
  have hd : count_unit u done ≤ count_unit u s.running := by
    unfold count_unit
    exact hsub.countP_le _
  have := hinv u
  rw [h1, h2, h3]
  omega

/-! ### The event-stream properties of `until_complete` (C4) -/

theorem until_complete_spec (m : Nat) (s : SchedulerState) (events : List SchedulerEvent)
    (final : SchedulerState) (hrun : UntilComplete m s events final) :
    units_invariant s →
    (∀ u, count_scheduled u events = count_unit u s.remaining) ∧
    (∀ u, count_finished u events = count_unit u s.remaining + count_unit u s.running) ∧
    (∀ u, u ∈ s.remaining →
      ∃ l1 l2 l3 r, events =
        l1 ++ SchedulerEvent.unit_scheduled u ::
          (l2 ++ SchedulerEvent.unit_finished u r :: l3)) ∧
    final.remaining = [] ∧ final.running = [] := by
  induction hrun with
  | stop s h1 h2 =>
    intro _
    refine ⟨?_, ?_, ?_, h1, h2⟩
    · intro u
      rw [h1]
      simp [count_scheduled, count_unit]
    · intro u
      rw [h1, h2]
      simp [count_finished, count_unit]
    · intro u hu
      rw [h1] at hu
      simp at hu
  | drain s done res events final h1 h2 h3 h4 h5 ih =>
    intro hinv
    have hinv2 := prune_running_invariant s done res hinv h4
    have hspec := prune_running_spec s done res hinv h4
    have IH := ih hinv2
    have hd_le : ∀ u, count_unit u done ≤ count_unit u s.running := by
      intro u
      unfold count_unit
      exact h4.countP_le _
    refine ⟨?_, ?_, ?_, IH.2.2.2⟩
    · intro u
      rw [count_scheduled_append, count_scheduled_fin_map, IH.1 u, hspec.1]
      simp
    · intro u
      rw [count_finished_append, count_finished_fin_map, IH.2.1 u, hspec.1, hspec.2.1 u]
      have := hd_le u
      omega
    · intro u hu
      rw [h1] at hu
      simp at hu
  | sched_last s adm s1 events final h1 h2 h3 h4 ih =>
    intro hinv
    have hsub : s.remaining.Sublist s.remaining := List.Sublist.refl _
    have hspec := schedule_max_spec m s.remaining s adm s1 h2
    have hinv1 := schedule_max_invariant m s.remaining s adm s1 h2 hsub hinv
    have IH := ih hinv1
    have hcount := hspec.2.2 hsub
    refine ⟨?_, ?_, ?_, IH.2.2.2⟩
    · intro u
      rw [count_scheduled_append, count_scheduled_sched_map, IH.1 u]
      have := hcount u
      omega
    · intro u
      rw [count_finished_append, count_finished_sched_map, IH.2.1 u]
      have hrun1 : count_unit u s1.running =
          count_unit u s.running + count_unit u (adm.map Prod.fst) := by
        rw [hspec.2.1, count_unit_append]
      have := hcount u
      omega
    · intro u hu
      have hupos : 0 < count_unit u s.remaining := (count_unit_pos u _).mpr hu
      have hz : count_unit u s1.remaining = 0 := by
        rw [h3]
        simp [count_unit]
      have hadm_pos : 0 < count_unit u (adm.map Prod.fst) := by
        have := hcount u
        omega
      have hsched_mem : SchedulerEvent.unit_scheduled u ∈
          adm.map (fun p => SchedulerEvent.unit_scheduled p.1) := by
        apply exists_scheduled_of_pos
        rw [count_scheduled_sched_map]
        exact hadm_pos
      obtain ⟨c1, c2, hc⟩ := List.append_of_mem hsched_mem
      have hfin_pos : 0 < count_finished u events := by
        rw [IH.2.1 u]
        have hrunpos : 0 < count_unit u s1.running := by
          rw [hspec.2.1, count_unit_append]
          omega
        omega
      obtain ⟨r, hr⟩ := exists_finished_of_pos u events hfin_pos
      obtain ⟨d1, d2, hd⟩ := List.append_of_mem hr
      refine ⟨c1, c2 ++ d1, d2, r, ?_⟩
      rw [hc, hd]
      simp [List.append_assoc]
  | sched_wait s adm s1 done res events final h1 h2 h3 h4 h5 h6 ih =>
    intro hinv
    have hsub : s.remaining.Sublist s.remaining := List.Sublist.refl _
    have hspec := schedule_max_spec m s.remaining s adm s1 h2
    have hinv1 := schedule_max_invariant m s.remaining s adm s1 h2 hsub hinv
    have hpspec := prune_running_spec s1 done res hinv1 h5
    have hinv2 := prune_running_invariant s1 done res hinv1 h5
    have IH := ih hinv2
    have hcount := hspec.2.2 hsub
    have hd_le : ∀ u, count_unit u done ≤ count_unit u s1.running := by
      intro u
      unfold count_unit
      exact h5.countP_le _
    have hrun1 : ∀ u, count_unit u s1.running =
        count_unit u s.running + count_unit u (adm.map Prod.fst) := by
      intro u
      rw [hspec.2.1, count_unit_append]
    have hfin_chunk : ∀ u,
        count_finished u
          (done.map (fun v => SchedulerEvent.unit_finished v (res v)) ++ events) =
          count_unit u s1.remaining + count_unit u s1.running := by
      intro u
      rw [count_finished_append, count_finished_fin_map, IH.2.1 u, hpspec.1, hpspec.2.1 u]
      have := hd_le u
      omega
    refine ⟨?_, ?_, ?_, IH.2.2.2⟩
    · intro u
      rw [count_scheduled_append, count_scheduled_sched_map, count_scheduled_append,
        count_scheduled_fin_map, IH.1 u, hpspec.1]
      have := hcount u
      omega
    · intro u
      rw [count_finished_append, count_finished_sched_map, hfin_chunk u]
      have := hcount u
      have := hrun1 u
      omega
    · intro u hu
      have hupos : 0 < count_unit u s.remaining := (count_unit_pos u _).mpr hu
      by_cases hadm : 0 < count_unit u (adm.map Prod.fst)
      · have hsched_mem : SchedulerEvent.unit_scheduled u ∈
            adm.map (fun p => SchedulerEvent.unit_scheduled p.1) := by
          apply exists_scheduled_of_pos
          rw [count_scheduled_sched_map]
          exact hadm
        obtain ⟨c1, c2, hc⟩ := List.append_of_mem hsched_mem
        have hfin_pos : 0 < count_finished u
            (done.map (fun v => SchedulerEvent.unit_finished v (res v)) ++ events) := by
          rw [hfin_chunk u]
          have := hrun1 u
          omega
        obtain ⟨r, hr⟩ := exists_finished_of_pos u _ hfin_pos
        obtain ⟨d1, d2, hd⟩ := List.append_of_mem hr
        refine ⟨c1, c2 ++ d1, d2, r, ?_⟩
        rw [hc, hd]
        simp [List.append_assoc]
      · have hmem1 : u ∈ s1.remaining := by
          apply (count_unit_pos u _).mp
          have := hcount u
          omega
        have hmem2 : u ∈ (prune_running s1 done res).remaining := by
          rw [hpspec.1]
          exact hmem1
        obtain ⟨l1, l2, l3, r, hl⟩ := IH.2.2.1 u hmem2
        refine ⟨adm.map (fun p => SchedulerEvent.unit_scheduled p.1) ++
          (done.map (fun v => SchedulerEvent.unit_finished v (res v)) ++ l1), l2, l3, r, ?_⟩
        rw [hl]
        simp [List.append_assoc]

/-- C4: from a fresh scheduler whose plan has no duplicate units, every
terminating run of `until_complete` emits, for every unit of the plan,
exactly one `UnitScheduled` and exactly one `UnitFinished` event, with the
`UnitScheduled` strictly preceding the `UnitFinished`; and the stream ends
only when both the remaining list and the running set are empty. -/
theorem until_complete_unit_events (m : Nat) (plan : List ExecutableUnit)
    (events : List SchedulerEvent) (final : SchedulerState)
    (hnd : plan.Nodup)
    (hrun : UntilComplete m { remaining := plan, running := [], results := [] } events final) :
    (∀ u ∈ plan,
      count_scheduled u events = 1 ∧
      count_finished u events = 1 ∧
      ∃ l1 l2 l3 r, events =
        l1 ++ SchedulerEvent.unit_scheduled u ::
          (l2 ++ SchedulerEvent.unit_finished u r :: l3)) ∧
    final.remaining = [] ∧ final.running = [] := by
  have hinv : units_invariant { remaining := plan, running := [], results := [] } := by
    intro u
    have h1 := count_unit_le_one u plan hnd
    simp only [count_unit, List.countP_nil, List.map_nil]
    simpa [count_unit] using h1
  have hspec := until_complete_spec m _ events final hrun hinv
  refine ⟨?_, hspec.2.2.2⟩
  intro u hu
  have hcount : count_unit u plan = 1 := by
    have hle := count_unit_le_one u plan hnd
    have hpos := (count_unit_pos u plan).mpr hu
    omega
  refine ⟨?_, ?_, hspec.2.2.1 u hu⟩
  · rw [hspec.1 u]
    exact hcount
  · rw [hspec.2.1 u]
    simp only [count_unit, List.countP_nil]
    unfold count_unit at hcount
    omega

/-- A concrete terminating execution of the scheduler with plan
`[unit_rw]` and capacity 1: one admission, one completion. -/
theorem until_complete_exec_example :
    UntilComplete 1 { remaining := [unit_rw], running := [], results := [] }
      [SchedulerEvent.unit_scheduled unit_rw,
        SchedulerEvent.unit_finished unit_rw RunResult.ok]
      { remaining := [], running := [], results := [(unit_rw, RunResult.ok)] } := by
  have h2 : schedule_max 1 [unit_rw] { remaining := [unit_rw], running := [], results := [] } =
      ([(unit_rw, [])], { remaining := [], running := [unit_rw], results := [] }) := by
    decide
  have hstop : UntilComplete 1
      (prune_running { remaining := [], running := [unit_rw], results := [] } [unit_rw]
        (fun _ => RunResult.ok))
      [] { remaining := [], running := [], results := [(unit_rw, RunResult.ok)] } := by
    have heq : prune_running { remaining := [], running := [unit_rw], results := [] } [unit_rw]
        (fun _ => RunResult.ok) =
        { remaining := [], running := [], results := [(unit_rw, RunResult.ok)] } := by
      decide
    rw [heq]
    exact UntilComplete.stop _ rfl rfl
  have hdrain : UntilComplete 1 { remaining := [], running := [unit_rw], results := [] }
      [SchedulerEvent.unit_finished unit_rw RunResult.ok]
      { remaining := [], running := [], results := [(unit_rw, RunResult.ok)] } := by
    have hd := UntilComplete.drain { remaining := [], running := [unit_rw], results := [] }
      [unit_rw] (fun _ => RunResult.ok) []
      { remaining := [], running := [], results := [(unit_rw, RunResult.ok)] }
      rfl (by simp) (by simp) (List.Sublist.refl _) hstop
    simpa using hd
  have hs := UntilComplete.sched_last { remaining := [unit_rw], running := [], results := [] }
    [(unit_rw, [])] { remaining := [], running := [unit_rw], results := [] }
    [SchedulerEvent.unit_finished unit_rw RunResult.ok]
    { remaining := [], running := [], results := [(unit_rw, RunResult.ok)] }
    (by simp) h2 rfl hdrain
  simpa using hs

/-- C4 witness: the theorem applied to the concrete execution. -/
theorem until_complete_unit_events_witness :
    (∀ u ∈ [unit_rw],
      count_scheduled u
        [SchedulerEvent.unit_scheduled unit_rw,
          SchedulerEvent.unit_finished unit_rw RunResult.ok] = 1 ∧
      count_finished u
        [SchedulerEvent.unit_scheduled unit_rw,
          SchedulerEvent.unit_finished unit_rw RunResult.ok] = 1 ∧
      ∃ l1 l2 l3 r,
        [SchedulerEvent.unit_scheduled unit_rw,
          SchedulerEvent.unit_finished unit_rw RunResult.ok] =
          l1 ++ SchedulerEvent.unit_scheduled u ::
            (l2 ++ SchedulerEvent.unit_finished u r :: l3)) ∧
    ({ remaining := [], running := [],
        results := [(unit_rw, RunResult.ok)] } : SchedulerState).remaining = [] ∧
    ({ remaining := [], running := [],
        results := [(unit_rw, RunResult.ok)] } : SchedulerState).running = [] :=
  until_complete_unit_events 1 [unit_rw] _ _ (by simp) until_complete_exec_example
